import Mathlib

/-!
Verification of the numeric core of the ML-Visualizer repository.

The repository is a React/TypeScript visualizer; its numeric routines are
embedded here shallowly: JavaScript double arithmetic is idealised as exact
field arithmetic over the rationals (over the reals for the sigmoid network,
whose activation uses the exponential function).  Array.prototype.reduce with
an initial accumulator becomes List.foldl; reduce without an initial value
(which throws on an empty array) becomes an Option-valued fold;
Array.prototype.sort (stable) becomes List.mergeSort; Math.round x becomes
the floor of x + 1/2.
-/

/-- A 2-D data point, as used by the regression pages (src/pages/LinearRegression.tsx,
src/pages/GradientDescent page in part_001, src/pages/compare.tsx). -/
structure Pt where
  x : ℚ
  y : ℚ
deriving DecidableEq, Repr

namespace LinReg

/-- Result record of calcRegression: slope m, intercept b, summed squared error. -/
structure RegResult where
  m : ℚ
  b : ℚ
  error : ℚ
deriving DecidableEq, Repr

/-- Sum of x coordinates: points.reduce((s, p) => s + p.x, 0). -/
def sumX (pts : List Pt) : ℚ := pts.foldl (fun s p => s + p.x) 0

/-- Sum of y coordinates: points.reduce((s, p) => s + p.y, 0). -/
def sumY (pts : List Pt) : ℚ := pts.foldl (fun s p => s + p.y) 0

/-- Sum of x*y: points.reduce((s, p) => s + p.x * p.y, 0). -/
def sumXY (pts : List Pt) : ℚ := pts.foldl (fun s p => s + p.x * p.y) 0

/-- Sum of x*x: points.reduce((s, p) => s + p.x * p.x, 0). -/
def sumX2 (pts : List Pt) : ℚ := pts.foldl (fun s p => s + p.x * p.x) 0

/-- The denominator n * sumX2 - sumX * sumX of the closed-form slope. -/
def denom (pts : List Pt) : ℚ :=
  (pts.length : ℚ) * sumX2 pts - sumX pts * sumX pts

/-- Sum of squared residuals of the line y = m x + b over the points;
this is the reduce computing the error field in calcRegression. -/
def sse (pts : List Pt) (m b : ℚ) : ℚ :=
  pts.foldl (fun e p => e + (p.y - (m * p.x + b)) ^ 2) 0

/-- calcRegression from src/pages/LinearRegression.tsx (part_001 lines 19-34):
closed-form ordinary least squares with guards for the empty list and for a
zero denominator. -/
def calcRegression (pts : List Pt) : RegResult :=
  if pts.length = 0 then ⟨0, 0, 0⟩ else
  let n : ℚ := pts.length
  let m := if denom pts = 0 then 0 else (n * sumXY pts - sumX pts * sumY pts) / denom pts
  let b := (sumY pts - m * sumX pts) / n
  ⟨m, b, sse pts m b⟩

/-- The default point set of the LinearRegression page. -/
def pts5 : List Pt := [⟨1, 3⟩, ⟨2, 5⟩, ⟨3, 4⟩, ⟨4, 7⟩, ⟨5, 8⟩]

end LinReg

namespace GradDesc

/-- Result record of computeClosedForm: slope m, intercept b, sum of squared residuals. -/
structure CFResult where
  m : ℚ
  b : ℚ
  ssr : ℚ
deriving DecidableEq, Repr

/-- Mean of the x coordinates (sumX / n in computeClosedForm). -/
def meanX (pts : List Pt) : ℚ := LinReg.sumX pts / pts.length

/-- Mean of the y coordinates (sumY / n in computeClosedForm). -/
def meanY (pts : List Pt) : ℚ := LinReg.sumY pts / pts.length

/-- The num accumulator of computeClosedForm: sum of (x - meanX) * (y - meanY). -/
def ccfNum (pts : List Pt) : ℚ :=
  pts.foldl (fun s p => s + (p.x - meanX pts) * (p.y - meanY pts)) 0

/-- The den accumulator of computeClosedForm: sum of (x - meanX) * (x - meanX). -/
def ccfDen (pts : List Pt) : ℚ :=
  pts.foldl (fun s p => s + (p.x - meanX pts) * (p.x - meanX pts)) 0

/-- computeClosedForm from the gradient-descent page in part_001 (lines 649-676):
least squares via centered sums, with guards for the empty list and a zero
centered denominator. -/
def computeClosedForm (pts : List Pt) : CFResult :=
  if pts.length = 0 then ⟨0, 0, 0⟩ else
  let m := if ccfDen pts = 0 then 0 else ccfNum pts / ccfDen pts
  let b := meanY pts - m * meanX pts
  let ssr := pts.foldl (fun s p => s + (p.y - (m * p.x + b)) * (p.y - (m * p.x + b))) 0
  ⟨m, b, ssr⟩

end GradDesc

namespace ComparePage

/-- JavaScript xs.reduce((a, b) => a + b) with no initial value: on an empty
array this throws a TypeError, modelled as none. -/
def jsReduceAdd (l : List ℚ) : Option ℚ :=
  match l with
  | [] => none
  | h :: t => some (t.foldl (· + ·) h)

/-- The inline slope/intercept computation of src/pages/compare.tsx
(lines 40-48).  The two mean computations use reduce without an initial
value, so the empty point set throws (none); a zero centered denominator
makes the JS division produce NaN (0/0), modelled as none. -/
def compareFit (pts : List Pt) : Option (ℚ × ℚ) :=
  match jsReduceAdd (pts.map (fun p => p.x)), jsReduceAdd (pts.map (fun p => p.y)) with
  | some sx, some sy =>
    let n : ℚ := pts.length
    let meanX := sx / n
    let meanY := sy / n
    let num := pts.foldl (fun acc p => acc + (p.x - meanX) * (p.y - meanY)) 0
    let den := pts.foldl (fun acc p => acc + (p.x - meanX) ^ 2) 0
    if den = 0 then none
    else some (num / den, meanY - (num / den) * meanX)
  | _, _ => none

end ComparePage

namespace LinReg

/-- A left fold that only accumulates additions is the sum of a mapped list. -/
theorem foldl_add_eq (f : Pt → ℚ) (l : List Pt) (a : ℚ) :
    l.foldl (fun s p => s + f p) a = a + (l.map f).sum := by
  induction l generalizing a with
  | nil => simp
  | cons p t ih => simp [ih]; ring

theorem sumX_eq (l : List Pt) : sumX l = (l.map (fun p => p.x)).sum := by
  simpa using foldl_add_eq (fun p => p.x) l 0

theorem sumY_eq (l : List Pt) : sumY l = (l.map (fun p => p.y)).sum := by
  simpa using foldl_add_eq (fun p => p.y) l 0

theorem sumXY_eq (l : List Pt) : sumXY l = (l.map (fun p => p.x * p.y)).sum := by
  simpa using foldl_add_eq (fun p => p.x * p.y) l 0

theorem sumX2_eq (l : List Pt) : sumX2 l = (l.map (fun p => p.x * p.x)).sum := by
  simpa using foldl_add_eq (fun p => p.x * p.x) l 0

/-- Sum of squared y values; verification-internal abbreviation (not in the source,
used only to expand the squared-error sum). -/
def sumY2 (pts : List Pt) : ℚ := (pts.map (fun p => p.y * p.y)).sum

/-- Expansion of the squared-error sum into the five power sums. -/
theorem sse_eq (pts : List Pt) (m b : ℚ) :
    sse pts m b = sumY2 pts - 2 * m * sumXY pts - 2 * b * sumY pts
      + m ^ 2 * sumX2 pts + 2 * m * b * sumX pts + (pts.length : ℚ) * b ^ 2 := by
  rw [sse, foldl_add_eq (fun p => (p.y - (m * p.x + b)) ^ 2) pts 0, zero_add,
    sumY2, sumXY_eq, sumY_eq, sumX2_eq, sumX_eq]
  induction pts with
  | nil => simp
  | cons p t ih =>
    simp only [List.map_cons, List.sum_cons, List.length_cons]
    push_cast
    rw [ih]  -- reuse the expansion for the tail
    ring

/-- Cauchy-Schwarz style bound: the square of a list sum is at most the length
times the sum of squares. -/
theorem sum_sq_le_length_mul_sum_sq (l : List ℚ) :
    l.sum ^ 2 ≤ (l.length : ℚ) * (l.map (fun a => a ^ 2)).sum := by
  induction l with
  | nil => simp
  | cons a t ih =>
    simp only [List.sum_cons, List.map_cons, List.length_cons]
    push_cast
    by_cases ht : t = []
    · subst ht; simp
    · have hn : (0 : ℚ) < t.length := by
        have := List.length_pos.mpr ht
        exact_mod_cast this
      nlinarith [ih, sq_nonneg ((t.length : ℚ) * a - t.sum), hn,
        mul_le_mul_of_nonneg_left ih (by positivity : (0:ℚ) ≤ (t.length : ℚ) + 1)]

/-- The least-squares denominator n * sumX2 - sumX * sumX is never negative. -/
theorem denom_nonneg (pts : List Pt) : 0 ≤ denom pts := by
  have h := sum_sq_le_length_mul_sum_sq (pts.map (fun p => p.x))
  simp only [List.map_map, List.length_map, Function.comp_def] at h
  rw [denom, sumX2_eq, sumX_eq]
  have hx : (pts.map (fun p => p.x * p.x)).sum = (pts.map (fun p => p.x ^ 2)).sum := by
    simp only [pow_two]
  rw [hx]
  nlinarith [h]

/-- Abstract form of least-squares optimality: the quadratic expansion of the
squared-error sum is minimised at the closed-form slope and intercept. -/
theorem ols_key (n Sx Sy Sxy Sxx Syy m b ms bs : ℚ) (hn : 0 < n)
    (hD : 0 < n * Sxx - Sx * Sx)
    (hms : ms = (n * Sxy - Sx * Sy) / (n * Sxx - Sx * Sx))
    (hbs : bs = (Sy - ms * Sx) / n) :
    Syy - 2 * ms * Sxy - 2 * bs * Sy + ms ^ 2 * Sxx + 2 * ms * bs * Sx + n * bs ^ 2 ≤
    Syy - 2 * m * Sxy - 2 * b * Sy + m ^ 2 * Sxx + 2 * m * b * Sx + n * b ^ 2 := by
  have hDne : n * Sxx - Sx * Sx ≠ 0 := ne_of_gt hD
  have hnne : n ≠ 0 := ne_of_gt hn
  have hDm : (n * Sxx - Sx * Sx) * ms = n * Sxy - Sx * Sy := by
    rw [hms]; field_simp
  have hnb : n * bs = Sy - ms * Sx := by
    rw [hbs]; field_simp
  have key : ∀ M B : ℚ,
      n * (n * Sxx - Sx * Sx) *
        (Syy - 2 * M * Sxy - 2 * B * Sy + M ^ 2 * Sxx + 2 * M * B * Sx + n * B ^ 2)
      = (n * Sxx - Sx * Sx) * (n * B + M * Sx - Sy) ^ 2
        + ((n * Sxx - Sx * Sx) * M - (n * Sxy - Sx * Sy)) ^ 2
        + (n * (n * Sxx - Sx * Sx) * Syy - (n * Sxx - Sx * Sx) * Sy ^ 2
            - (n * Sxy - Sx * Sy) ^ 2) := by
    intro M B; ring
  have h1 : n * (n * Sxx - Sx * Sx) *
      (Syy - 2 * ms * Sxy - 2 * bs * Sy + ms ^ 2 * Sxx + 2 * ms * bs * Sx + n * bs ^ 2)
      = n * (n * Sxx - Sx * Sx) * Syy - (n * Sxx - Sx * Sx) * Sy ^ 2
        - (n * Sxy - Sx * Sy) ^ 2 := by
    rw [key ms bs]
    have e1 : n * bs + ms * Sx - Sy = 0 := by rw [hnb]; ring
    have e2 : (n * Sxx - Sx * Sx) * ms - (n * Sxy - Sx * Sy) = 0 := by rw [hDm]; ring
    rw [e1, e2]; ring
  have h2 : n * (n * Sxx - Sx * Sx) *
      (Syy - 2 * ms * Sxy - 2 * bs * Sy + ms ^ 2 * Sxx + 2 * ms * bs * Sx + n * bs ^ 2)
      ≤ n * (n * Sxx - Sx * Sx) *
      (Syy - 2 * m * Sxy - 2 * b * Sy + m ^ 2 * Sxx + 2 * m * b * Sx + n * b ^ 2) := by
    rw [h1, key m b]
    nlinarith [sq_nonneg (n * b + m * Sx - Sy),
      sq_nonneg ((n * Sxx - Sx * Sx) * m - (n * Sxy - Sx * Sy)),
      mul_nonneg hD.le (sq_nonneg (n * b + m * Sx - Sy))]
  exact le_of_mul_le_mul_left h2 (mul_pos hn hD)

/-- For a non-empty point set with non-zero denominator, the slope of
calcRegression is its closed-form expression. -/
theorem calcRegression_m (pts : List Pt) (h0 : pts.length ≠ 0) (hd : denom pts ≠ 0) :
    (calcRegression pts).m
      = ((pts.length : ℚ) * sumXY pts - sumX pts * sumY pts) / denom pts := by
  simp [calcRegression, h0, hd]

/-- For a non-empty point set with non-zero denominator, the intercept of
calcRegression is its closed-form expression. -/
theorem calcRegression_b (pts : List Pt) (h0 : pts.length ≠ 0) (hd : denom pts ≠ 0) :
    (calcRegression pts).b
      = (sumY pts - (calcRegression pts).m * sumX pts) / (pts.length : ℚ) := by
  simp [calcRegression, h0, hd]

/-- Optimality of calcRegression, stated through the quadratic expansion. -/
theorem calcRegression_min (pts : List Pt) (m b : ℚ) (h2 : 2 ≤ pts.length)
    (hd : denom pts ≠ 0) :
    sse pts (calcRegression pts).m (calcRegression pts).b ≤ sse pts m b := by
  have h0 : pts.length ≠ 0 := by omega
  have hn : (0 : ℚ) < pts.length := by exact_mod_cast Nat.pos_of_ne_zero h0
  have hDpos : 0 < denom pts := lt_of_le_of_ne (denom_nonneg pts) (Ne.symm hd)
  have hDpos' : 0 < (pts.length : ℚ) * sumX2 pts - sumX pts * sumX pts := hDpos
  rw [sse_eq, sse_eq]
  exact ols_key (pts.length : ℚ) (sumX pts) (sumY pts) (sumXY pts) (sumX2 pts)
    (sumY2 pts) m b (calcRegression pts).m (calcRegression pts).b hn hDpos'
    (calcRegression_m pts h0 hd) (calcRegression_b pts h0 hd)

end LinReg

namespace GradDesc

open LinReg

/-- Centered cross-product sums expand into the raw power sums. -/
theorem centered_mul_sum (l : List Pt) (a c : ℚ) :
    (l.map (fun p => (p.x - a) * (p.y - c))).sum
      = sumXY l - c * sumX l - a * sumY l + (l.length : ℚ) * (a * c) := by
  rw [sumXY_eq, sumX_eq, sumY_eq]
  induction l with
  | nil => simp
  | cons p t ih =>
    simp only [List.map_cons, List.sum_cons, List.length_cons]
    push_cast
    rw [ih]; ring

/-- Centered squared sums expand into the raw power sums. -/
theorem centered_sq_sum (l : List Pt) (a : ℚ) :
    (l.map (fun p => (p.x - a) * (p.x - a))).sum
      = sumX2 l - 2 * a * sumX l + (l.length : ℚ) * (a * a) := by
  rw [sumX2_eq, sumX_eq]
  induction l with
  | nil => simp
  | cons p t ih =>
    simp only [List.map_cons, List.sum_cons, List.length_cons]
    push_cast
    rw [ih]; ring

theorem ccfNum_eq (pts : List Pt) (h0 : pts.length ≠ 0) :
    ccfNum pts = ((pts.length : ℚ) * sumXY pts - sumX pts * sumY pts) / pts.length := by
  have hn : (pts.length : ℚ) ≠ 0 := Nat.cast_ne_zero.mpr h0
  rw [ccfNum, foldl_add_eq (fun p => (p.x - meanX pts) * (p.y - meanY pts)) pts 0,
    zero_add, centered_mul_sum, meanX, meanY]
  field_simp
  ring

theorem ccfDen_eq (pts : List Pt) (h0 : pts.length ≠ 0) :
    ccfDen pts = denom pts / pts.length := by
  have hn : (pts.length : ℚ) ≠ 0 := Nat.cast_ne_zero.mpr h0
  rw [ccfDen, foldl_add_eq (fun p => (p.x - meanX pts) * (p.x - meanX pts)) pts 0,
    zero_add, centered_sq_sum, meanX, denom]
  field_simp
  ring

/-- Under a non-zero denominator, computeClosedForm and calcRegression agree on
the slope. -/
theorem computeClosedForm_m (pts : List Pt) (h0 : pts.length ≠ 0)
    (hd : denom pts ≠ 0) :
    (computeClosedForm pts).m = (calcRegression pts).m := by
  have hn : (pts.length : ℚ) ≠ 0 := Nat.cast_ne_zero.mpr h0
  have hden : ccfDen pts ≠ 0 := by
    rw [ccfDen_eq pts h0]
    exact div_ne_zero hd hn
  rw [calcRegression_m pts h0 hd]
  simp only [computeClosedForm, h0, if_false, hden, if_neg hden]
  rw [ccfNum_eq pts h0, ccfDen_eq pts h0]
  field_simp

/-- Under a non-zero denominator, computeClosedForm and calcRegression agree on
the intercept. -/
theorem computeClosedForm_b (pts : List Pt) (h0 : pts.length ≠ 0)
    (hd : denom pts ≠ 0) :
    (computeClosedForm pts).b = (calcRegression pts).b := by
  have hn : (pts.length : ℚ) ≠ 0 := Nat.cast_ne_zero.mpr h0
  have hden : ccfDen pts ≠ 0 := by
    rw [ccfDen_eq pts h0]
    exact div_ne_zero hd hn
  have hm := computeClosedForm_m pts h0 hd
  rw [calcRegression_b pts h0 hd, ← hm]
  simp only [computeClosedForm, h0, if_false, hden, if_neg hden] at hm ⊢
  rw [meanX, meanY]
  field_simp
  ring

end GradDesc

/-- C1: OLS optimality — for every point set with at least 2 points and non-zero
x-variance (non-zero closed-form denominator), the slope/intercept pair returned
by calcRegression, and equally by computeClosedForm, achieves a sum of squared
residuals no greater than that of any other slope/intercept pair over the same
points. -/
theorem ols_fit_minimizes_sse (pts : List Pt) (m b : ℚ) (h2 : 2 ≤ pts.length)
    (hd : LinReg.denom pts ≠ 0) :
    LinReg.sse pts (LinReg.calcRegression pts).m (LinReg.calcRegression pts).b
      ≤ LinReg.sse pts m b ∧
    LinReg.sse pts (GradDesc.computeClosedForm pts).m (GradDesc.computeClosedForm pts).b
      ≤ LinReg.sse pts m b := by
  have h0 : pts.length ≠ 0 := by omega
  refine ⟨LinReg.calcRegression_min pts m b h2 hd, ?_⟩
  rw [GradDesc.computeClosedForm_m pts h0 hd, GradDesc.computeClosedForm_b pts h0 hd]
  exact LinReg.calcRegression_min pts m b h2 hd

/-- Witness for C1: the default five points of the LinearRegression page satisfy
the hypotheses, and the fitted line beats the line y = 0. -/
theorem ols_fit_minimizes_sse_witness :
    LinReg.sse LinReg.pts5 (LinReg.calcRegression LinReg.pts5).m
        (LinReg.calcRegression LinReg.pts5).b ≤ LinReg.sse LinReg.pts5 0 0 ∧
    LinReg.sse LinReg.pts5 (GradDesc.computeClosedForm LinReg.pts5).m
        (GradDesc.computeClosedForm LinReg.pts5).b ≤ LinReg.sse LinReg.pts5 0 0 :=
  ols_fit_minimizes_sse LinReg.pts5 0 0 (by norm_num [LinReg.pts5])
    (by norm_num [LinReg.denom, LinReg.sumX2, LinReg.sumX, LinReg.pts5])

/-- C3 counterexample: on the default points [(1,3),(2,5),(3,4),(4,7),(5,8)] the
fitted intercept is 9/5 = 1.8, at distance 1/5 from the claimed value 1.6, so
the intercept is not approximately 1.6. -/
theorem calcRegression_pts5_intercept_off :
    |(LinReg.calcRegression LinReg.pts5).b - 8/5| = 1/5 := by
  norm_num [LinReg.calcRegression, LinReg.denom, LinReg.sumX, LinReg.sumY,
    LinReg.sumXY, LinReg.sumX2, LinReg.sse, LinReg.pts5]

/-- C3 (amended): on the default points [(1,3),(2,5),(3,4),(4,7),(5,8)] the
closed-form fit is slope 6/5 = 1.2, intercept 9/5 = 1.8, and the sum of squared
residuals is 14/5 = 2.8. -/
theorem calcRegression_pts5_eq :
    LinReg.calcRegression LinReg.pts5 = ⟨6/5, 9/5, 14/5⟩ := by
  norm_num [LinReg.calcRegression, LinReg.denom, LinReg.sumX, LinReg.sumY,
    LinReg.sumXY, LinReg.sumX2, LinReg.sse, LinReg.pts5]

/-- C9 counterexample: the inline regression of compare.tsx is not total on the
empty point set — its two reduce calls have no initial value, so JavaScript
throws a TypeError (modelled as none) instead of returning slope 0, intercept 0,
error 0. -/
theorem compareFit_nil_none : ComparePage.compareFit [] = none := rfl

/-- C9 (amended): calcRegression and computeClosedForm are total with the stated
fallbacks — the empty point set yields slope 0, intercept 0, error 0, and any
non-empty point set with zero x-variance (zero closed-form denominator) yields
slope 0 and intercept equal to the mean of the y values.  The inline regression
of compare.tsx raises on an empty point set (see the counterexample); in its
page the point set can only grow from five fixed points, so that path is
unreachable there. -/
theorem regression_degenerate_totality :
    LinReg.calcRegression [] = ⟨0, 0, 0⟩ ∧
    GradDesc.computeClosedForm [] = ⟨0, 0, 0⟩ ∧
    ∀ pts : List Pt, pts ≠ [] → LinReg.denom pts = 0 →
      (LinReg.calcRegression pts).m = 0 ∧
      (LinReg.calcRegression pts).b = LinReg.sumY pts / pts.length ∧
      (GradDesc.computeClosedForm pts).m = 0 ∧
      (GradDesc.computeClosedForm pts).b = LinReg.sumY pts / pts.length := by
  refine ⟨rfl, rfl, ?_⟩
  intro pts hne hd
  have h0 : pts.length ≠ 0 := by
    simpa [List.length_eq_zero] using hne
  have hn : (pts.length : ℚ) ≠ 0 := Nat.cast_ne_zero.mpr h0
  have hden : GradDesc.ccfDen pts = 0 := by
    rw [GradDesc.ccfDen_eq pts h0, hd, zero_div]
  constructor
  · simp [LinReg.calcRegression, h0, hd]
  constructor
  · simp [LinReg.calcRegression, h0, hd]
  constructor
  · simp [GradDesc.computeClosedForm, h0, hden]
  · simp [GradDesc.computeClosedForm, h0, hden, GradDesc.meanY]

/-- Witness for C9 (amended): two points sharing x = 2 have zero x-variance and
get slope 0 and intercept the mean of their y values. -/
theorem regression_degenerate_totality_witness :
    (LinReg.calcRegression [⟨2, 3⟩, ⟨2, 5⟩]).m = 0 ∧
    (LinReg.calcRegression [⟨2, 3⟩, ⟨2, 5⟩]).b
      = LinReg.sumY [⟨2, 3⟩, ⟨2, 5⟩] / ([⟨2, 3⟩, ⟨2, 5⟩] : List Pt).length ∧
    (GradDesc.computeClosedForm [⟨2, 3⟩, ⟨2, 5⟩]).m = 0 ∧
    (GradDesc.computeClosedForm [⟨2, 3⟩, ⟨2, 5⟩]).b
      = LinReg.sumY [⟨2, 3⟩, ⟨2, 5⟩] / ([⟨2, 3⟩, ⟨2, 5⟩] : List Pt).length :=
  regression_degenerate_totality.2.2 [⟨2, 3⟩, ⟨2, 5⟩] (by simp)
    (by norm_num [LinReg.denom, LinReg.sumX2, LinReg.sumX])

/-- Class label of a training point in src/pages/DecisionBoundaries.tsx. -/
inductive Label where
  | A : Label
  | B : Label
deriving DecidableEq, Repr

namespace DB

/-- A labelled training point of the DecisionBoundaries page. -/
structure LPoint where
  x : ℚ
  y : ℚ
  label : Label
deriving DecidableEq, Repr

/-- Canvas padding constant of DecisionBoundaries.tsx. -/
def PADDING : ℚ := 40

/-- The auto-scaled plotting domain. -/
structure Domain where
  xMin : ℚ
  xMax : ℚ
  yMin : ℚ
  yMax : ℚ
deriving DecidableEq, Repr

/-- dataToPixel of DecisionBoundaries.tsx (lines 98-104). -/
def dataToPixel (dom : Domain) (x y width height : ℚ) : ℚ × ℚ :=
  (PADDING + ((x - dom.xMin) / (dom.xMax - dom.xMin)) * (width - PADDING * 2),
   PADDING + ((dom.yMax - y) / (dom.yMax - dom.yMin)) * (height - PADDING * 2))

/-- pixelToData of DecisionBoundaries.tsx (lines 107-114). -/
def pixelToData (dom : Domain) (px py width height : ℚ) : ℚ × ℚ :=
  (dom.xMin + ((px - PADDING) / (width - PADDING * 2)) * (dom.xMax - dom.xMin),
   dom.yMax - ((py - PADDING) / (height - PADDING * 2)) * (dom.yMax - dom.yMin))

/-- Squared Euclidean distance dx * dx + dy * dy, the argument of Math.sqrt in
the dist helper of DecisionBoundaries.tsx. -/
def distSq (qx qy : ℚ) (p : LPoint) : ℚ :=
  (qx - p.x) * (qx - p.x) + (qy - p.y) * (qy - p.y)

/-- The dist helper of DecisionBoundaries.tsx: Euclidean distance from the
query to a training point. -/
noncomputable def dist (qx qy : ℚ) (p : LPoint) : ℝ :=
  Real.sqrt ((distSq qx qy p : ℚ) : ℝ)

/-- Comparing by squared distance is the same as comparing by Euclidean
distance, which justifies sorting the candidate list by the (rational) squared
distance in place of the irrational Math.sqrt value the source sorts by. -/
theorem distSq_le_iff_dist_le (qx qy : ℚ) (p q : LPoint) :
    distSq qx qy p ≤ distSq qx qy q ↔ dist qx qy p ≤ dist qx qy q := by
  have hq : (0 : ℝ) ≤ (distSq qx qy q : ℝ) := by
    have h0 : (0 : ℚ) ≤ distSq qx qy q := by
      have h1 := mul_self_nonneg (qx - q.x)
      have h2 := mul_self_nonneg (qy - q.y)
      simpa [distSq] using add_nonneg h1 h2
    exact_mod_cast h0
  rw [dist, dist, Real.sqrt_le_sqrt_iff hq]
  exact_mod_cast Iff.rfl

/-- JavaScript Math.round: round half toward positive infinity. -/
def jsRound (x : ℚ) : ℤ := ⌊x + 1 / 2⌋

/-- The effective neighbour count Math.max(1, Math.min(points.length,
Math.round(kValue))) of the KNN branch. -/
def kOf (n : ℕ) (kValue : ℚ) : ℤ := max 1 (min (n : ℤ) (jsRound kValue))

/-- The candidate list sorted ascending by distance to the query:
points.map(p => ({p, d})).sort((a, b) => a.d - b.d).  JavaScript sort is
stable, as is mergeSort; the sort key is the squared distance, which orders
identically to the Euclidean distance (distSq_le_iff_dist_le). -/
def sortedByDist (pts : List LPoint) (qx qy : ℚ) : List (LPoint × ℚ) :=
  (pts.map (fun p => (p, distSq qx qy p))).mergeSort (fun a b => a.2 ≤ b.2)

/-- One step of the voting loop: votes[distances[i].p.label]++. -/
def voteStep (v : ℕ × ℕ) (pd : LPoint × ℚ) : ℕ × ℕ :=
  match pd.1.label with
  | Label.A => (v.1 + 1, v.2)
  | Label.B => (v.1, v.2 + 1)

/-- The KNN branch of classifyGrid in DecisionBoundaries.tsx (lines 117-129). -/
def classifyGridKNN (pts : List LPoint) (kValue : ℚ) (gx gy : ℚ) : Label :=
  if pts.length = 0 then Label.A else
  let distances := sortedByDist pts gx gy
  let k := (kOf pts.length kValue).toNat
  let votes := (distances.take k).foldl voteStep (0, 0)
  if votes.1 ≥ votes.2 then Label.A else Label.B

/-- The SVM branch of classifyGrid in DecisionBoundaries.tsx (lines 130-132):
f = w1 * gx + w2 * gy + b, label A iff f is non-negative. -/
def classifyGridSVM (w1 w2 svmB gx gy : ℚ) : Label :=
  if w1 * gx + w2 * gy + svmB ≥ 0 then Label.A else Label.B

/-- Number of points carrying a given label. -/
def countLabel (l : Label) (pts : List LPoint) : ℕ :=
  pts.countP (fun p => p.label = l)

/-- The global majority label, ties resolved to label A. -/
def majorityLabel (pts : List LPoint) : Label :=
  if countLabel Label.A pts ≥ countLabel Label.B pts then Label.A else Label.B

end DB

namespace LinReg

/-- Canvas padding constant of LinearRegression.tsx (PADDING = 48). -/
def PADDING : ℚ := 48

/-- The auto-scaled plotting domain of LinearRegression.tsx. -/
structure Domain where
  xmin : ℚ
  xmax : ℚ
  ymin : ℚ
  ymax : ℚ
deriving DecidableEq, Repr

/-- dataToPixel of LinearRegression.tsx (part_001 lines 89-94). -/
def dataToPixel (dom : Domain) (x y width height : ℚ) : ℚ × ℚ :=
  (PADDING + ((x - dom.xmin) / (dom.xmax - dom.xmin)) * (width - 2 * PADDING),
   height - PADDING - ((y - dom.ymin) / (dom.ymax - dom.ymin)) * (height - 2 * PADDING))

/-- pixelToData of LinearRegression.tsx (part_001 lines 95-100). -/
def pixelToData (dom : Domain) (px py width height : ℚ) : ℚ × ℚ :=
  (dom.xmin + ((px - PADDING) / (width - 2 * PADDING)) * (dom.xmax - dom.xmin),
   dom.ymin + ((height - PADDING - py) / (height - 2 * PADDING)) * (dom.ymax - dom.ymin))

end LinReg

/-- C5: coordinate round-trip law — for every non-degenerate domain (xMax > xMin,
yMax > yMin) and non-degenerate viewport (plot span non-zero) and every point
inside the domain, pixelToData inverts dataToPixel exactly, in both the
DecisionBoundaries and the LinearRegression coordinate mappers (exact
rational arithmetic, hence in particular within 1e-6). -/
theorem pixel_data_roundtrip :
    (∀ (dom : DB.Domain) (x y w h : ℚ), dom.xMin < dom.xMax → dom.yMin < dom.yMax →
      dom.xMin ≤ x → x ≤ dom.xMax → dom.yMin ≤ y → y ≤ dom.yMax →
      w ≠ DB.PADDING * 2 → h ≠ DB.PADDING * 2 →
      DB.pixelToData dom (DB.dataToPixel dom x y w h).1 (DB.dataToPixel dom x y w h).2 w h
        = (x, y)) ∧
    (∀ (dom : LinReg.Domain) (x y w h : ℚ), dom.xmin < dom.xmax → dom.ymin < dom.ymax →
      dom.xmin ≤ x → x ≤ dom.xmax → dom.ymin ≤ y → y ≤ dom.ymax →
      w ≠ 2 * LinReg.PADDING → h ≠ 2 * LinReg.PADDING →
      LinReg.pixelToData dom (LinReg.dataToPixel dom x y w h).1
        (LinReg.dataToPixel dom x y w h).2 w h = (x, y)) := by
  constructor
  · intro dom x y w h hx hy _ _ _ _ hw hh
    have hxd : dom.xMax - dom.xMin ≠ 0 := sub_ne_zero_of_ne (ne_of_gt hx)
    have hyd : dom.yMax - dom.yMin ≠ 0 := sub_ne_zero_of_ne (ne_of_gt hy)
    have hwd : w - DB.PADDING * 2 ≠ 0 := sub_ne_zero_of_ne hw
    have hhd : h - DB.PADDING * 2 ≠ 0 := sub_ne_zero_of_ne hh
    simp only [DB.dataToPixel, DB.pixelToData, Prod.mk.injEq]
    constructor
    · field_simp
      ring
    · field_simp
      ring
  · intro dom x y w h hx hy _ _ _ _ hw hh
    have hxd : dom.xmax - dom.xmin ≠ 0 := sub_ne_zero_of_ne (ne_of_gt hx)
    have hyd : dom.ymax - dom.ymin ≠ 0 := sub_ne_zero_of_ne (ne_of_gt hy)
    have hwd : w - 2 * LinReg.PADDING ≠ 0 := sub_ne_zero_of_ne hw
    have hhd : h - 2 * LinReg.PADDING ≠ 0 := sub_ne_zero_of_ne hh
    simp only [LinReg.dataToPixel, LinReg.pixelToData, Prod.mk.injEq]
    constructor
    · field_simp
      ring
    · field_simp
      ring

/-- Witness for C5: the default 10 by 10 domain, a 640 by 400 canvas and the
interior point (3, 4) round-trip exactly under both mappers. -/
theorem pixel_data_roundtrip_witness :
    DB.pixelToData ⟨0, 10, 0, 10⟩
      (DB.dataToPixel ⟨0, 10, 0, 10⟩ 3 4 640 400).1
      (DB.dataToPixel ⟨0, 10, 0, 10⟩ 3 4 640 400).2 640 400 = (3, 4) ∧
    LinReg.pixelToData ⟨0, 10, 0, 10⟩
      (LinReg.dataToPixel ⟨0, 10, 0, 10⟩ 3 4 640 400).1
      (LinReg.dataToPixel ⟨0, 10, 0, 10⟩ 3 4 640 400).2 640 400 = (3, 4) :=
  ⟨pixel_data_roundtrip.1 ⟨0, 10, 0, 10⟩ 3 4 640 400 (by norm_num) (by norm_num)
      (by norm_num) (by norm_num) (by norm_num) (by norm_num)
      (by norm_num [DB.PADDING]) (by norm_num [DB.PADDING]),
    pixel_data_roundtrip.2 ⟨0, 10, 0, 10⟩ 3 4 640 400 (by norm_num) (by norm_num)
      (by norm_num) (by norm_num) (by norm_num) (by norm_num)
      (by norm_num [LinReg.PADDING]) (by norm_num [LinReg.PADDING])⟩

/-- C8: linear-margin scale invariance — multiplying (w1, w2, bias) by any
positive scalar leaves every classification of the SVM branch unchanged. -/
theorem svm_scale_invariant (w1 w2 svmB c gx gy : ℚ) (hc : 0 < c) :
    DB.classifyGridSVM (c * w1) (c * w2) (c * svmB) gx gy
      = DB.classifyGridSVM w1 w2 svmB gx gy := by
  unfold DB.classifyGridSVM
  rw [show c * w1 * gx + c * w2 * gy + c * svmB
      = c * (w1 * gx + w2 * gy + svmB) from by ring]
  exact if_congr (mul_nonneg_iff_of_pos_left hc) rfl rfl

/-- Witness for C8: the spec scenario w1 = 1, w2 = 1, bias = -4 at point (1, 1),
scaled by c = 2. -/
theorem svm_scale_invariant_witness :
    DB.classifyGridSVM (2 * 1) (2 * 1) (2 * (-4)) 1 1
      = DB.classifyGridSVM 1 1 (-4) 1 1 :=
  svm_scale_invariant 1 1 (-4) 2 1 1 (by norm_num)

/-- C10: with an empty training set the KNN branch returns label A for every
query point and every k value. -/
theorem knn_empty_label_A (kValue gx gy : ℚ) :
    DB.classifyGridKNN [] kValue gx gy = Label.A := rfl

namespace DB

/-- The voting loop counts the A-labelled and B-labelled entries. -/
theorem foldl_voteStep (l : List (LPoint × ℚ)) (a b : ℕ) :
    l.foldl voteStep (a, b)
      = (a + l.countP (fun pd => pd.1.label = Label.A),
         b + l.countP (fun pd => pd.1.label = Label.B)) := by
  induction l generalizing a b with
  | nil => simp
  | cons pd t ih =>
    cases h : pd.1.label with
    | A =>
      simp only [List.foldl_cons, voteStep, h, ih, List.countP_cons, h]
      simp [h]
      omega
    | B =>
      simp only [List.foldl_cons, voteStep, h, ih, List.countP_cons, h]
      simp [h]
      omega

/-- Math.round of a whole number is itself. -/
theorem jsRound_natCast (n : ℕ) : jsRound (n : ℚ) = (n : ℤ) := by
  rw [jsRound]
  apply Int.floor_eq_iff.mpr
  constructor
  · push_cast; linarith
  · push_cast; linarith

/-- Every entry of the sorted candidate list pairs a point with its squared
distance to the query. -/
theorem sortedByDist_snd (pts : List LPoint) (qx qy : ℚ) :
    ∀ pd ∈ sortedByDist pts qx qy, pd.2 = distSq qx qy pd.1 := by
  intro pd hpd
  rw [sortedByDist, List.mem_mergeSort] at hpd
  obtain ⟨p, _, rfl⟩ := List.mem_map.mp hpd
  rfl

/-- The sorted candidate list is pairwise ordered by its distance component. -/
theorem sortedByDist_pairwise (pts : List LPoint) (qx qy : ℚ) :
    (sortedByDist pts qx qy).Pairwise (fun a b => a.2 ≤ b.2) := by
  have h := @List.sorted_mergeSort (LPoint × ℚ)
    (fun a b => decide (a.2 ≤ b.2))
    (fun a b c h1 h2 => by
      simp only [decide_eq_true_eq] at h1 h2 ⊢
      exact le_trans h1 h2)
    (fun a b => by
      simpa only [Bool.or_eq_true, decide_eq_true_eq] using le_total a.2 b.2)
    (pts.map (fun p => (p, distSq qx qy p)))
  rw [sortedByDist]
  exact h.imp (fun hab => by simpa only [decide_eq_true_eq] using hab)

/-- The sorted candidate list is a permutation of the tagged point list. -/
theorem sortedByDist_perm (pts : List LPoint) (qx qy : ℚ) :
    List.Perm (sortedByDist pts qx qy) (pts.map (fun p => (p, distSq qx qy p))) :=
  List.mergeSort_perm _ _

theorem sortedByDist_length (pts : List LPoint) (qx qy : ℚ) :
    (sortedByDist pts qx qy).length = pts.length := by
  rw [sortedByDist, List.length_mergeSort, List.length_map]

end DB

/-- C6: KNN with k equal to the number of training points returns the global
majority label of the training set (ties resolved to label A) for every query
point, independent of the query location. -/
theorem knn_k_eq_n_majority (pts : List DB.LPoint) (gx gy : ℚ) :
    DB.classifyGridKNN pts (pts.length : ℚ) gx gy = DB.majorityLabel pts := by
  by_cases h0 : pts.length = 0
  · have hnil : pts = [] := List.length_eq_zero.mp h0
    subst hnil
    simp [DB.classifyGridKNN, DB.majorityLabel, DB.countLabel]
  · simp only [DB.classifyGridKNN, if_neg h0]
    have h1 : 1 ≤ pts.length := Nat.pos_of_ne_zero h0
    have hk : (DB.kOf pts.length (pts.length : ℚ)).toNat = pts.length := by
      rw [DB.kOf, DB.jsRound_natCast]
      omega
    have hlen := DB.sortedByDist_length pts gx gy
    rw [hk, List.take_of_length_le (le_of_eq hlen), DB.foldl_voteStep]
    have hperm := DB.sortedByDist_perm pts gx gy
    have hA : (DB.sortedByDist pts gx gy).countP (fun pd => pd.1.label = Label.A)
        = DB.countLabel Label.A pts := by
      rw [hperm.countP_eq, List.countP_map, DB.countLabel]
      rfl
    have hB : (DB.sortedByDist pts gx gy).countP (fun pd => pd.1.label = Label.B)
        = DB.countLabel Label.B pts := by
      rw [hperm.countP_eq, List.countP_map, DB.countLabel]
      rfl
    rw [hA, hB, DB.majorityLabel]
    simp

namespace DB

/-- Counting labels over the first components of a tagged list. -/
theorem countLabel_map_fst (l : List (LPoint × ℚ)) (lab : Label) :
    countLabel lab (l.map Prod.fst) = l.countP (fun pd => pd.1.label = lab) := by
  rw [countLabel, List.countP_map]
  rfl

/-- The k-entry prefix of the distance-sorted candidate list selects k training
points, leaves the rest, and every selected point is at least as close to the
query in Euclidean distance as every unselected point. -/
theorem sorted_take_selection (pts : List LPoint) (gx gy : ℚ) (k : ℕ)
    (hk : k ≤ pts.length) :
    (((sortedByDist pts gx gy).take k).map Prod.fst).length = k ∧
    List.Perm ((((sortedByDist pts gx gy).take k).map Prod.fst)
      ++ (((sortedByDist pts gx gy).drop k).map Prod.fst)) pts ∧
    (∀ a ∈ ((sortedByDist pts gx gy).take k).map Prod.fst,
      ∀ b ∈ ((sortedByDist pts gx gy).drop k).map Prod.fst,
        dist gx gy a ≤ dist gx gy b) := by
  have hslen := sortedByDist_length pts gx gy
  refine ⟨?_, ?_, ?_⟩
  · rw [List.length_map, List.length_take, hslen]
    omega
  · rw [← List.map_append, List.take_append_drop]
    have hp := (sortedByDist_perm pts gx gy).map Prod.fst
    simpa [List.map_map, Function.comp_def] using hp
  · intro a ha b hb
    obtain ⟨pa, hpa, rfl⟩ := List.mem_map.mp ha
    obtain ⟨pb, hpb, rfl⟩ := List.mem_map.mp hb
    have hsorted : List.Sorted (fun a b : LPoint × ℚ => a.2 ≤ b.2)
        (sortedByDist pts gx gy) := sortedByDist_pairwise pts gx gy
    have hrel := hsorted.rel_of_mem_take_of_mem_drop hpa hpb
    rw [sortedByDist_snd pts gx gy pa (List.mem_of_mem_take hpa),
      sortedByDist_snd pts gx gy pb (List.mem_of_mem_drop hpb)] at hrel
    exact (distSq_le_iff_dist_le gx gy pa.1 pb.1).mp hrel

end DB

namespace About

/-- The clamp Math.max(1, Math.min(points.length, kValue)) of the classifyGrid
KNN branch in src/pages/About.tsx: a fractional kValue is clamped to [1, n]
without rounding. -/
def kFractional (n : ℕ) (kValue : ℚ) : ℚ := max 1 (min (n : ℚ) kValue)

/-- The KNN branch of classifyGrid in the DecisionBoundariesPage of
src/pages/About.tsx (lines 415-443): guard on an empty point set, sort by
distance to the query, clamp kValue to [1, n] (kFractional, without rounding),
tally the votes over the kFloor and kCeil nearest entries, interpolate the two
tallies linearly by the fractional part (weight), and return A on a tie.  This
is the near-duplicate of the DecisionBoundaries.tsx branch that handles a
fractional k during animation. -/
def classifyGridKNN (pts : List DB.LPoint) (kValue : ℚ) (gx gy : ℚ) : Label :=
  if pts.length = 0 then Label.A else
  let distances := DB.sortedByDist pts gx gy
  let kF := kFractional pts.length kValue
  let weight := kF - ⌊kF⌋
  let votesFloor := (distances.take ⌊kF⌋.toNat).foldl DB.voteStep (0, 0)
  let votesCeil := (distances.take ⌈kF⌉.toNat).foldl DB.voteStep (0, 0)
  let aVotes : ℚ := votesFloor.1 * (1 - weight) + votesCeil.1 * weight
  let bVotes : ℚ := votesFloor.2 * (1 - weight) + votesCeil.2 * weight
  if aVotes ≥ bVotes then Label.A else Label.B

end About

/-- C7: KNN voting policy — for every non-empty training set and every query
point, the classifyGrid KNN branch of the About.tsx DecisionBoundariesPage
clamps the effective k to [1, n], selects nearest neighbours by Euclidean
distance, breaks ties in favour of label A, and for a fractional k linearly
interpolates the vote tally between the floor(k)-nearest and ceil(k)-nearest
neighbour counts. -/
theorem knn_fractional_vote_policy (pts : List DB.LPoint) (kValue gx gy : ℚ)
    (hne : pts ≠ []) :
    1 ≤ About.kFractional pts.length kValue ∧
    About.kFractional pts.length kValue ≤ (pts.length : ℚ) ∧
    ∃ nearF farF nearC farC : List DB.LPoint,
      nearF.length = ⌊About.kFractional pts.length kValue⌋.toNat ∧
      nearC.length = ⌈About.kFractional pts.length kValue⌉.toNat ∧
      List.Perm (nearF ++ farF) pts ∧
      List.Perm (nearC ++ farC) pts ∧
      (∀ a ∈ nearF, ∀ b ∈ farF, DB.dist gx gy a ≤ DB.dist gx gy b) ∧
      (∀ a ∈ nearC, ∀ b ∈ farC, DB.dist gx gy a ≤ DB.dist gx gy b) ∧
      About.classifyGridKNN pts kValue gx gy
        = (if (DB.countLabel Label.A nearF : ℚ)
              * (1 - (About.kFractional pts.length kValue
                  - ⌊About.kFractional pts.length kValue⌋))
            + (DB.countLabel Label.A nearC : ℚ)
              * (About.kFractional pts.length kValue
                  - ⌊About.kFractional pts.length kValue⌋)
            ≥ (DB.countLabel Label.B nearF : ℚ)
              * (1 - (About.kFractional pts.length kValue
                  - ⌊About.kFractional pts.length kValue⌋))
            + (DB.countLabel Label.B nearC : ℚ)
              * (About.kFractional pts.length kValue
                  - ⌊About.kFractional pts.length kValue⌋)
           then Label.A else Label.B) := by
  have h0 : pts.length ≠ 0 := fun h => hne (List.length_eq_zero.mp h)
  have h1 : 1 ≤ pts.length := Nat.pos_of_ne_zero h0
  have h1q : (1 : ℚ) ≤ (pts.length : ℚ) := by exact_mod_cast h1
  have hk1 : 1 ≤ About.kFractional pts.length kValue := le_max_left _ _
  have hkn : About.kFractional pts.length kValue ≤ (pts.length : ℚ) :=
    max_le h1q (min_le_left _ _)
  have hceil : ⌈About.kFractional pts.length kValue⌉ ≤ (pts.length : ℤ) :=
    Int.ceil_le.mpr (by exact_mod_cast hkn)
  have hfl := Int.floor_le_ceil (About.kFractional pts.length kValue)
  have hflN : ⌊About.kFractional pts.length kValue⌋.toNat ≤ pts.length := by omega
  have hclN : ⌈About.kFractional pts.length kValue⌉.toNat ≤ pts.length := by omega
  obtain ⟨hlF, hpF, hdF⟩ := DB.sorted_take_selection pts gx gy _ hflN
  obtain ⟨hlC, hpC, hdC⟩ := DB.sorted_take_selection pts gx gy _ hclN
  refine ⟨hk1, hkn,
    ((DB.sortedByDist pts gx gy).take
      ⌊About.kFractional pts.length kValue⌋.toNat).map Prod.fst,
    ((DB.sortedByDist pts gx gy).drop
      ⌊About.kFractional pts.length kValue⌋.toNat).map Prod.fst,
    ((DB.sortedByDist pts gx gy).take
      ⌈About.kFractional pts.length kValue⌉.toNat).map Prod.fst,
    ((DB.sortedByDist pts gx gy).drop
      ⌈About.kFractional pts.length kValue⌉.toNat).map Prod.fst,
    hlF, hlC, hpF, hpC, hdF, hdC, ?_⟩
  simp only [About.classifyGridKNN, if_neg h0, DB.foldl_voteStep, zero_add]
  rw [DB.countLabel_map_fst, DB.countLabel_map_fst, DB.countLabel_map_fst,
    DB.countLabel_map_fst]

/-- Witness for C7: the policy instantiated on a concrete two-point training
set (a B point at distance 1 and an A point at distance 2 from the origin)
with the fractional kValue 1.6 and the origin as query. -/
theorem knn_fractional_vote_policy_witness :
    1 ≤ About.kFractional ([⟨1, 0, Label.B⟩, ⟨2, 0, Label.A⟩] : List DB.LPoint).length (8/5) ∧
    About.kFractional ([⟨1, 0, Label.B⟩, ⟨2, 0, Label.A⟩] : List DB.LPoint).length (8/5)
      ≤ (([⟨1, 0, Label.B⟩, ⟨2, 0, Label.A⟩] : List DB.LPoint).length : ℚ) ∧
    ∃ nearF farF nearC farC : List DB.LPoint,
      nearF.length = ⌊About.kFractional ([⟨1, 0, Label.B⟩, ⟨2, 0, Label.A⟩] : List DB.LPoint).length (8/5)⌋.toNat ∧
      nearC.length = ⌈About.kFractional ([⟨1, 0, Label.B⟩, ⟨2, 0, Label.A⟩] : List DB.LPoint).length (8/5)⌉.toNat ∧
      List.Perm (nearF ++ farF) ([⟨1, 0, Label.B⟩, ⟨2, 0, Label.A⟩] : List DB.LPoint) ∧
      List.Perm (nearC ++ farC) ([⟨1, 0, Label.B⟩, ⟨2, 0, Label.A⟩] : List DB.LPoint) ∧
      (∀ a ∈ nearF, ∀ b ∈ farF, DB.dist 0 0 a ≤ DB.dist 0 0 b) ∧
      (∀ a ∈ nearC, ∀ b ∈ farC, DB.dist 0 0 a ≤ DB.dist 0 0 b) ∧
      About.classifyGridKNN [⟨1, 0, Label.B⟩, ⟨2, 0, Label.A⟩] (8/5) 0 0
        = (if (DB.countLabel Label.A nearF : ℚ)
              * (1 - (About.kFractional ([⟨1, 0, Label.B⟩, ⟨2, 0, Label.A⟩] : List DB.LPoint).length (8/5)
                  - ⌊About.kFractional ([⟨1, 0, Label.B⟩, ⟨2, 0, Label.A⟩] : List DB.LPoint).length (8/5)⌋))
            + (DB.countLabel Label.A nearC : ℚ)
              * (About.kFractional ([⟨1, 0, Label.B⟩, ⟨2, 0, Label.A⟩] : List DB.LPoint).length (8/5)
                  - ⌊About.kFractional ([⟨1, 0, Label.B⟩, ⟨2, 0, Label.A⟩] : List DB.LPoint).length (8/5)⌋)
            ≥ (DB.countLabel Label.B nearF : ℚ)
              * (1 - (About.kFractional ([⟨1, 0, Label.B⟩, ⟨2, 0, Label.A⟩] : List DB.LPoint).length (8/5)
                  - ⌊About.kFractional ([⟨1, 0, Label.B⟩, ⟨2, 0, Label.A⟩] : List DB.LPoint).length (8/5)⌋))
            + (DB.countLabel Label.B nearC : ℚ)
              * (About.kFractional ([⟨1, 0, Label.B⟩, ⟨2, 0, Label.A⟩] : List DB.LPoint).length (8/5)
                  - ⌊About.kFractional ([⟨1, 0, Label.B⟩, ⟨2, 0, Label.A⟩] : List DB.LPoint).length (8/5)⌋)
           then Label.A else Label.B) :=
  knn_fractional_vote_policy [⟨1, 0, Label.B⟩, ⟨2, 0, Label.A⟩] (8/5) 0 0 (by simp)


namespace Anim

/-- The ease-in-out cubic curve of the animation step in LinearRegression.tsx:
norm < 0.5 gives 4 norm cubed, otherwise 1 - ((-2 norm + 2) cubed) / 2. -/
def easeInOutCubic (t : ℚ) : ℚ :=
  if t < 1/2 then 4 * t ^ 3 else 1 - (-2 * t + 2) ^ 3 / 2

/-- One frame of the animation effect of LinearRegression.tsx (part_001 lines
215-259), returning the (slope, intercept) state after the frame.  The two
Math.random() samples are passed in as u1 and u2 (each drawn from [0, 1)):
randomM = (u1 - 0.5) * 0.3 and randomB = (u2 - 0.5) * 0.8 jitter the eased
interpolation while norm < 1; once norm reaches 1 the state is set exactly to
the target. -/
def animStep (startM startB targetM targetB norm u1 u2 : ℚ) : ℚ × ℚ :=
  let ease := easeInOutCubic norm
  let randomM := (u1 - 1/2) * (3/10)
  let randomB := (u2 - 1/2) * (8/10)
  let newM := startM + (targetM - startM) * ease + randomM * (1 - ease)
  let newB := startB + (targetB - startB) * ease + randomB * (1 - ease)
  if norm < 1 then (newM, newB) else (targetM, targetB)

end Anim

/-- C4 counterexample: at progress 0 the frame does not return the start
parameters — with start (0, 0), target (1, 1) and Math.random() samples 0, the
returned state is (-3/20, -2/5), because the full-amplitude random jitter is
added at ease = 0. -/
theorem animStep_progress_zero_ne_start :
    Anim.animStep 0 0 1 1 0 0 0 ≠ (0, 0) := by
  simp only [Anim.animStep, Anim.easeInOutCubic]
  norm_num

/-- C4 (amended): once progress reaches 1 the frame returns exactly the target
parameters, for every start, target and jitter sample; at progress 0 the frame
returns exactly the start parameters only in the zero-jitter case, that is when
both Math.random() samples equal 1/2. -/
theorem animStep_endpoints (sM sB tM tB u1 u2 : ℚ) :
    Anim.animStep sM sB tM tB 1 u1 u2 = (tM, tB) ∧
    Anim.animStep sM sB tM tB 0 (1/2) (1/2) = (sM, sB) := by
  constructor
  · simp [Anim.animStep]
  · simp only [Anim.animStep, Anim.easeInOutCubic]
    norm_num

namespace NN

/-- The sigmoid activation 1 / (1 + exp(-x)) of NeuralNetworks.tsx. -/
noncomputable def sigmoid (x : ℝ) : ℝ := 1 / (1 + Real.exp (-x))

/-- sigmoidDerivative of NeuralNetworks.tsx: x * (1 - x), the derivative of the
sigmoid expressed in terms of the activation value. -/
def sigmoidDerivative (x : ℝ) : ℝ := x * (1 - x)

/-- The parameter state of the 2-4-1 XOR network: w0 are the eight input-to-
hidden weights (hidden unit i uses w0[2i] and w0[2i+1]), w1 the four
hidden-to-output weights, b the four hidden biases and (at index 4) the output
bias. -/
structure NNParams where
  w0 : Fin 8 → ℝ
  w1 : Fin 4 → ℝ
  b : Fin 5 → ℝ

/-- A training example: two inputs and one target. -/
structure TrainExample where
  inputs : ℝ × ℝ
  target : ℝ

/-- The XOR_DATA training set of NeuralNetworks.tsx. -/
def XOR_DATA : List TrainExample :=
  [⟨(0, 0), 0⟩, ⟨(0, 1), 1⟩, ⟨(1, 0), 1⟩, ⟨(1, 1), 0⟩]

/-- Hidden activations of the forward pass (NeuralNetworks.tsx lines 60-85):
hidden i = sigmoid(w0[2i] * x1 + w0[2i+1] * x2 + b[i]). -/
noncomputable def hiddenOf (p : NNParams) (x1 x2 : ℝ) (i : Fin 4) : ℝ :=
  sigmoid (p.w0 ⟨2 * i.1, by omega⟩ * x1 + p.w0 ⟨2 * i.1 + 1, by omega⟩ * x2
    + p.b ⟨i.1, by omega⟩)

/-- Output of the forward pass: sigmoid of the w1-weighted hidden activations
plus the output bias b[4]. -/
noncomputable def outOf (p : NNParams) (x1 x2 : ℝ) : ℝ :=
  sigmoid (p.w1 0 * hiddenOf p x1 x2 0 + p.w1 1 * hiddenOf p x1 x2 1
    + p.w1 2 * hiddenOf p x1 x2 2 + p.w1 3 * hiddenOf p x1 x2 3 + p.b 4)

/-- outputDelta of trainStep: (target - out) * sigmoidDerivative(out). -/
noncomputable def outputDelta (p : NNParams) (ex : TrainExample) : ℝ :=
  (ex.target - outOf p ex.inputs.1 ex.inputs.2)
    * sigmoidDerivative (outOf p ex.inputs.1 ex.inputs.2)

/-- hiddenDeltas of trainStep: sigmoidDerivative(hidden_i) * outputDelta * w1[i]. -/
noncomputable def hiddenDelta (p : NNParams) (ex : TrainExample) (i : Fin 4) : ℝ :=
  sigmoidDerivative (hiddenOf p ex.inputs.1 ex.inputs.2 i) * outputDelta p ex * p.w1 i

/-- trainStep of NeuralNetworks.tsx (lines 87-122) applied to the example the
Math.random() call selected: a single-example update of every weight and bias
with the learning rate hard-coded as 0.5. -/
noncomputable def trainStep (p : NNParams) (ex : TrainExample) : NNParams where
  w0 := fun j => p.w0 j + 0.5 * hiddenDelta p ex ⟨j.1 / 2, by omega⟩
    * (if j.1 % 2 = 0 then ex.inputs.1 else ex.inputs.2)
  w1 := fun i => p.w1 i + 0.5 * outputDelta p ex * hiddenOf p ex.inputs.1 ex.inputs.2 i
  b := fun j => if h : j.1 < 4 then p.b j + 0.5 * hiddenDelta p ex ⟨j.1, h⟩
    else p.b j + 0.5 * outputDelta p ex

/-- Modelled from the spec: trainStep(params, dataset, learningRate) of spec
section 4.3 performing one full-batch gradient-descent update — every weight
and bias accumulates learningRate times the per-example gradient term summed
over the whole dataset.  The source has no such function; its trainStep updates
from one randomly drawn example only. -/
noncomputable def trainStepBatch (p : NNParams) (data : List TrainExample)
    (lr : ℝ) : NNParams where
  w0 := fun j => p.w0 j + lr * ((data.map (fun ex => hiddenDelta p ex ⟨j.1 / 2, by omega⟩
    * (if j.1 % 2 = 0 then ex.inputs.1 else ex.inputs.2))).sum)
  w1 := fun i => p.w1 i
    + lr * ((data.map (fun ex => outputDelta p ex * hiddenOf p ex.inputs.1 ex.inputs.2 i)).sum)
  b := fun j => if h : j.1 < 4 then
      p.b j + lr * ((data.map (fun ex => hiddenDelta p ex ⟨j.1, h⟩)).sum)
    else p.b j + lr * ((data.map (fun ex => outputDelta p ex)).sum)

/-- The all-zero parameter state. -/
def zeroParams : NNParams := ⟨fun _ => 0, fun _ => 0, fun _ => 0⟩

theorem sigmoid_zero : sigmoid 0 = 1/2 := by
  rw [sigmoid, neg_zero, Real.exp_zero]
  norm_num

theorem hiddenOf_zero (x1 x2 : ℝ) (i : Fin 4) : hiddenOf zeroParams x1 x2 i = 1/2 := by
  simp [hiddenOf, zeroParams, sigmoid_zero]

theorem outOf_zero (x1 x2 : ℝ) : outOf zeroParams x1 x2 = 1/2 := by
  simp [outOf, zeroParams, sigmoid_zero]

theorem outputDelta_zero (ex : TrainExample) :
    outputDelta zeroParams ex = (ex.target - 1/2) * (1/4) := by
  rw [outputDelta, outOf_zero, sigmoidDerivative]
  norm_num

end NN

/-- C2 counterexample: a single trainStep is not a full-batch update — from the
all-zero parameter state, training on the example ((0,0), 0) moves the first
hidden-to-output weight to -1/32, while the full-batch update of the spec over
XOR_DATA at the same learning rate 0.5 leaves it at 0 (the four per-example
output deltas cancel). -/
theorem trainStep_not_full_batch :
    (NN.trainStep NN.zeroParams ⟨(0, 0), 0⟩).w1 0
      ≠ (NN.trainStepBatch NN.zeroParams NN.XOR_DATA 0.5).w1 0 := by
  have hl : (NN.trainStep NN.zeroParams ⟨(0, 0), 0⟩).w1 0 = -(1/32) := by
    simp only [NN.trainStep, NN.outputDelta_zero, NN.hiddenOf_zero]
    simp [NN.zeroParams]
    norm_num
  have hr : (NN.trainStepBatch NN.zeroParams NN.XOR_DATA 0.5).w1 0 = 0 := by
    simp only [NN.trainStepBatch, NN.XOR_DATA, List.map_cons, List.map_nil,
      List.sum_cons, List.sum_nil, NN.outputDelta_zero, NN.hiddenOf_zero]
    simp [NN.zeroParams]
    norm_num
  rw [hl, hr]
  norm_num

/-- C2 (amended): a single training step of the XOR network picks one training
example (chosen by Math.random()) and performs one stochastic gradient-descent
update on that example alone, with the learning rate hard-coded to 0.5: the
output delta is (target - output) * output * (1 - output), the hidden delta of
unit i is outputDelta * w1[i] * hidden_i * (1 - hidden_i), every weight is
incremented by 0.5 * delta * input and every bias by 0.5 * delta. -/
theorem trainStep_is_single_example_sgd (p : NN.NNParams) (ex : NN.TrainExample) :
    (∀ i : Fin 4,
      (NN.trainStep p ex).w1 i = p.w1 i
        + 0.5 * ((ex.target - NN.outOf p ex.inputs.1 ex.inputs.2)
            * NN.outOf p ex.inputs.1 ex.inputs.2
            * (1 - NN.outOf p ex.inputs.1 ex.inputs.2))
          * NN.hiddenOf p ex.inputs.1 ex.inputs.2 i) ∧
    (∀ i : Fin 4,
      (NN.trainStep p ex).w0 ⟨2 * i.1, by omega⟩ = p.w0 ⟨2 * i.1, by omega⟩
        + 0.5 * (((ex.target - NN.outOf p ex.inputs.1 ex.inputs.2)
              * NN.outOf p ex.inputs.1 ex.inputs.2
              * (1 - NN.outOf p ex.inputs.1 ex.inputs.2))
            * p.w1 i * NN.hiddenOf p ex.inputs.1 ex.inputs.2 i
            * (1 - NN.hiddenOf p ex.inputs.1 ex.inputs.2 i)) * ex.inputs.1 ∧
      (NN.trainStep p ex).w0 ⟨2 * i.1 + 1, by omega⟩ = p.w0 ⟨2 * i.1 + 1, by omega⟩
        + 0.5 * (((ex.target - NN.outOf p ex.inputs.1 ex.inputs.2)
              * NN.outOf p ex.inputs.1 ex.inputs.2
              * (1 - NN.outOf p ex.inputs.1 ex.inputs.2))
            * p.w1 i * NN.hiddenOf p ex.inputs.1 ex.inputs.2 i
            * (1 - NN.hiddenOf p ex.inputs.1 ex.inputs.2 i)) * ex.inputs.2) ∧
    (∀ i : Fin 4,
      (NN.trainStep p ex).b ⟨i.1, by omega⟩ = p.b ⟨i.1, by omega⟩
        + 0.5 * (((ex.target - NN.outOf p ex.inputs.1 ex.inputs.2)
              * NN.outOf p ex.inputs.1 ex.inputs.2
              * (1 - NN.outOf p ex.inputs.1 ex.inputs.2))
            * p.w1 i * NN.hiddenOf p ex.inputs.1 ex.inputs.2 i
            * (1 - NN.hiddenOf p ex.inputs.1 ex.inputs.2 i))) ∧
    ((NN.trainStep p ex).b 4 = p.b 4
        + 0.5 * ((ex.target - NN.outOf p ex.inputs.1 ex.inputs.2)
            * NN.outOf p ex.inputs.1 ex.inputs.2
            * (1 - NN.outOf p ex.inputs.1 ex.inputs.2))) := by
  refine ⟨?_, ?_, ?_, ?_⟩
  · intro i
    simp only [NN.trainStep, NN.outputDelta, NN.sigmoidDerivative]
    ring
  · intro i
    have h2 : (2 * i.1) % 2 = 0 := by omega
    have h3 : (2 * i.1) / 2 = i.1 := by omega
    have h4 : (2 * i.1 + 1) % 2 = 1 := by omega
    have h5 : (2 * i.1 + 1) / 2 = i.1 := by omega
    constructor
    · simp only [NN.trainStep, h2, h3, eq_self_iff_true, if_true, Fin.eta]
      simp only [NN.hiddenDelta, NN.outputDelta, NN.sigmoidDerivative]
      ring
    · simp only [NN.trainStep, h4, h5, Fin.eta]
      rw [if_neg one_ne_zero]
      simp only [NN.hiddenDelta, NN.outputDelta, NN.sigmoidDerivative]
      ring
  · intro i
    simp only [NN.trainStep]
    rw [dif_pos i.2]
    simp only [Fin.eta]
    simp only [NN.hiddenDelta, NN.outputDelta, NN.sigmoidDerivative]
    ring
  · simp only [NN.trainStep]
    rw [dif_neg (by decide : ¬((4 : Fin 5).1 < 4))]
    simp only [NN.outputDelta, NN.sigmoidDerivative]
    ring
